import Mathlib

/-!
Verification of the measurement-orchestration core of the `aws-latency-mesh`
scripts (`orchestrate.py`, `generate_report.py`).

Shallow embedding conventions used throughout this file:

* Python floats are modelled as exact rationals (`ℚ`).  Where a claim's
  truth turns on IEEE-754 double rounding — the `min ≤ avg ≤ max` invariant
  of C7 — the binary64 round-to-nearest-even model `fl53` is used instead,
  and the exact-rational theorems are stated as the ideal of the program's
  arithmetic.  (The C4 example values are float-exact, so the rational
  model is faithful there.)
* Wall-clock effects (SSH transport, thread scheduling, `datetime.now`) are
  abstracted into a `ProbeBehavior` oracle describing what the external probe
  does for one pair: it times out, raises, or yields the per-iteration stdout
  texts.  The constant metadata fields `packet_loss_pct` (always `0`),
  `measurement_type` (always `"tcp_qperf"`) and the timestamp are omitted
  from the `Measurement` record because no claim mentions them.
* Completion order of the thread pool in `run_region_measurements` is
  unspecified; the scheduler theorems therefore quantify over an arbitrary
  permutation of the submission-order result list.
-/

/-- One inventory entry (`instances[az_id]` in `orchestrate.py`).  The
`cloud` field carries the value of `instance.get('cloud', 'aws')`, i.e. the
default is applied at construction. -/
structure Instance where
  az_id : String
  region : String
  cloud : String
  public_ip : String
  private_ip : String
deriving DecidableEq

/-- Outcome of `parse_qperf_output`: the Python function either raises
`ValueError` (modelled as `.raise` with the message text), returns `None`,
or returns one latency value in milliseconds. -/
inductive ParseOut where
  | raise (msg : String)
  | ok (v : Option ℚ)
deriving DecidableEq

/-- Outcome of the sample-collection loop in `run_measurement` (the five
`qperf` client iterations): either some iteration raised, or the loop
finished with the list of successfully parsed latencies in order. -/
inductive CollectOut where
  | raise (msg : String)
  | ok (lats : List ℚ)
deriving DecidableEq

/-- The `type == 'result'` record built by `run_measurement`.  `mdev_sq` is
the population variance of the samples; the Python code stores its square
root (`variance ** 0.5`) in `mdev_ms`, so the stored spread is
`Real.sqrt mdev_sq`. -/
structure Measurement where
  cloud : String
  region : String
  source_az : String
  target_az : String
  source_ip : String
  target_ip : String
  min_ms : ℚ
  avg_ms : ℚ
  max_ms : ℚ
  mdev_sq : ℚ
  sample_count : ℕ
deriving DecidableEq

/-- A tagged result dictionary as produced by `run_measurement`: the three
`type` values `'skip'`, `'result'` and `'error'`.  The `error` constructor
carries the `error` field and the optional `output` field. -/
inductive MResult where
  | skip (cloud source_az target_az reason : String)
  | result (m : Measurement)
  | error (cloud source_az target_az error : String) (output : Option String)
deriving DecidableEq

/-- Oracle for everything `run_measurement` does through SSH for one pair:
some subprocess call exceeded its timeout (`subprocess.TimeoutExpired`),
some step raised another exception with message `msg`, or all subprocess
calls returned and the five client iterations produced the given stdout
texts. -/
inductive ProbeBehavior where
  | timeout
  | exn (msg : String)
  | ok (outputs : List String)

/-- ASCII whitespace as matched by the regex class `\s` in
`parse_qperf_output`. -/
def isSpc (c : Char) : Bool :=
  c == ' ' || c == '\t' || c == '\n' || c == '\r' || c == '\x0b' || c == '\x0c'

/-- The character class `[\d.]` of the latency regex. -/
def isDigitOrDot (c : Char) : Bool := c.isDigit || c == '.'

/-- Value of a digit string (most significant first), as `float` reads the
integral and fractional digit runs. -/
def digitsToNat (l : List Char) : ℕ :=
  l.foldl (fun n c => 10 * n + (c.toNat - 48)) 0

/-- Python's `float` applied to a token drawn from the class `[\d.]+`:
defined exactly when the token contains at least one digit and at most one
dot; `float('.')` or `float('1.2.3')` raise `ValueError`, modelled as
`Option.none`. -/
def parseFloatTok (tok : List Char) : Option ℚ :=
  if tok.any Char.isDigit = false then Option.none
  else if tok.count '.' = 0 then Option.some (digitsToNat tok : ℚ)
  else if tok.count '.' = 1 then
    Option.some ((digitsToNat (tok.takeWhile (fun c => !(c == '.'))) : ℚ) +
      (digitsToNat ((tok.dropWhile (fun c => !(c == '.'))).drop 1) : ℚ) /
        (10 : ℚ) ^ ((tok.dropWhile (fun c => !(c == '.'))).drop 1).length)
  else Option.none

/-- Match the part of the regex `latency\s*=\s*([\d.]+)\s*(us|ms|s)` that
follows the literal `latency`, returning the captured token and unit.  The
alternation is tried in the regex's order `us`, `ms`, `s`; no backtracking
case is lost because the character classes of adjacent regex pieces are
disjoint. -/
def matchAfterLatency (cs : List Char) : Option (List Char × String) :=
  match cs.dropWhile isSpc with
  | '=' :: rest =>
    let rest1 := rest.dropWhile isSpc
    match rest1.takeWhile isDigitOrDot with
    | [] => Option.none
    | tok =>
      match (rest1.dropWhile isDigitOrDot).dropWhile isSpc with
      | 'u' :: 's' :: _ => Option.some (tok, "us")
      | 'm' :: 's' :: _ => Option.some (tok, "ms")
      | 's' :: _ => Option.some (tok, "s")
      | _ => Option.none
  | _ => Option.none

/-- Attempt the latency regex at the current position: it can only match
where the literal `latency` starts. -/
def tryLatencyAt : List Char → Option (List Char × String)
  | 'l' :: 'a' :: 't' :: 'e' :: 'n' :: 'c' :: 'y' :: rest => matchAfterLatency rest
  | _ => Option.none

/-- Leftmost match of the latency regex (`re.search` semantics): try every
start position left to right. -/
def findLatency : List Char → Option (List Char × String)
  | [] => Option.none
  | c :: cs =>
    match tryLatencyAt (c :: cs) with
    | Option.some r => Option.some r
    | Option.none => findLatency cs

/-- Unit normalisation of `parse_qperf_output`: `us` readings are divided by
1000, `s` readings multiplied by 1000, `ms` kept. -/
def unitToMs (u : String) (v : ℚ) : ℚ :=
  if u = "us" then v / 1000 else if u = "s" then v * 1000 else v

/-- Embedding of `parse_qperf_output` (orchestrate.py lines 95-114): search
for the latency line, convert the captured token with `float` (which can
raise), and normalise the unit to milliseconds. -/
def parse_qperf_output (output : String) : ParseOut :=
  match findLatency output.data with
  | Option.none => ParseOut.ok Option.none
  | Option.some (tok, u) =>
    match parseFloatTok tok with
    | Option.none => ParseOut.raise ("could not convert string to float: " ++ tok.asString)
    | Option.some v => ParseOut.ok (Option.some (unitToMs u v))

/-- Check that `needle` is an initial segment of `hay` (helper for Python's
substring test). -/
def matchesAt : List Char → List Char → Bool
  | [], _ => true
  | _ :: _, [] => false
  | a :: as, b :: bs => a == b && matchesAt as bs

/-- Python's `needle in hay` substring test on strings, as character
lists. -/
def hasSubstr (needle : List Char) : List Char → Bool
  | [] => matchesAt needle []
  | c :: cs => matchesAt needle (c :: cs) || hasSubstr needle cs

/-- The constant diagnostic text stored in the `output` field of the
`no_valid_measurements` error record (orchestrate.py line 220). -/
def noValidMsg : String := "qperf returned no valid latency values"

/-- The measurement loop of `run_measurement` (orchestrate.py lines 162-176):
for each iteration's stdout, skip it when it contains `ERROR`, otherwise
parse it, appending the latency when one is found.  A `ValueError` escaping
`parse_qperf_output` aborts the remaining iterations and is caught by the
surrounding `except Exception` clause, so it surfaces as `.raise`. -/
def collectLatencies : List String → CollectOut
  | [] => CollectOut.ok []
  | out :: rest =>
    if hasSubstr "ERROR".data out.data then collectLatencies rest
    else
      match parse_qperf_output out with
      | ParseOut.raise m => CollectOut.raise m
      | ParseOut.ok Option.none => collectLatencies rest
      | ParseOut.ok (Option.some v) =>
        match collectLatencies rest with
        | CollectOut.raise m => CollectOut.raise m
        | CollectOut.ok ls => CollectOut.ok (v :: ls)

/-- The statistics block of `run_measurement` (orchestrate.py lines 186-212)
on the non-empty latency list `x :: xs`: `min`, `max`, arithmetic mean, and
population variance (whose square root the code stores as `mdev_ms`). -/
def measureFromLats (src tgt : Instance) (x : ℚ) (xs : List ℚ) : Measurement :=
  ⟨src.cloud, src.region, src.az_id, tgt.az_id, src.public_ip, tgt.private_ip,
    List.foldl min x xs,
    (x :: xs).sum / ((x :: xs).length : ℚ),
    List.foldl max x xs,
    ((x :: xs).map (fun y => (y - (x :: xs).sum / ((x :: xs).length : ℚ)) ^ 2)).sum /
      ((x :: xs).length : ℚ),
    (x :: xs).length⟩

/-- Embedding of `run_measurement` (orchestrate.py lines 117-238).  The
same-AZ check precedes the `try` block; inside it, a
`subprocess.TimeoutExpired` from any SSH call yields the `timeout` error
record, any other exception yields an error record whose `error` field is
the exception message, and otherwise the collected latencies are turned
into a result record or the `no_valid_measurements` error record. -/
def run_measurement (src tgt : Instance) (b : ProbeBehavior) : MResult :=
  if src.az_id = tgt.az_id then
    MResult.skip src.cloud src.az_id tgt.az_id "same_az"
  else
    match b with
    | ProbeBehavior.timeout =>
      MResult.error src.cloud src.az_id tgt.az_id "timeout" Option.none
    | ProbeBehavior.exn m =>
      MResult.error src.cloud src.az_id tgt.az_id m Option.none
    | ProbeBehavior.ok outs =>
      match collectLatencies outs with
      | CollectOut.raise m => MResult.error src.cloud src.az_id tgt.az_id m Option.none
      | CollectOut.ok [] =>
        MResult.error src.cloud src.az_id tgt.az_id "no_valid_measurements"
          (Option.some noValidMsg)
      | CollectOut.ok (x :: xs) => MResult.result (measureFromLats src tgt x xs)

/-- The work list produced by `itertools.combinations(instance_list, 2)`
(orchestrate.py line 248): all unordered pairs, in the list's order. -/
def pairsOf {α : Type} : List α → List (α × α)
  | [] => []
  | x :: xs => xs.map (fun y => (x, y)) ++ pairsOf xs

/-- Embedding of `run_region_measurements` (orchestrate.py lines 241-266):
every generated pair is submitted to the pool and each future's result is
appended exactly once; `behav` gives the probe oracle for each pair.  The
list is in submission order; `as_completed` delivers an arbitrary
permutation of it, which the scheduler theorems quantify over. -/
def run_region_measurements (instances : List Instance)
    (behav : Instance × Instance → ProbeBehavior) : List MResult :=
  (pairsOf instances).map (fun p => run_measurement p.1 p.2 (behav p))

/-- The `(source_az, target_az)` identification carried by every result
record variant. -/
def resultKey : MResult → String × String
  | MResult.skip _ s t _ => (s, t)
  | MResult.result m => (m.source_az, m.target_az)
  | MResult.error _ s t _ _ => (s, t)

/-- The `(cloud, region)` grouping of `main` (orchestrate.py lines 347-356):
the sub-inventory of instances carrying the given cloud and region tags, in
inventory order. -/
def groupOf (inv : List Instance) (c r : String) : List Instance :=
  inv.filter (fun i => i.cloud == c && i.region == r)

/-- One row of the `all_latencies` list built by `generate_report`
(generate_report.py line 60): `(cloud, region, source_az, target_az,
avg_ms)`. -/
structure Entry where
  cloud : String
  region : String
  src : String
  tgt : String
  avg : ℚ
deriving DecidableEq

/-- The rows of `all_latencies`: one entry per `type == 'result'` record, in
sequence order (generate_report.py lines 46 and 60). -/
def entriesOf (rs : List MResult) : List Entry :=
  rs.filterMap (fun r =>
    match r with
    | MResult.result m => Option.some ⟨m.cloud, m.region, m.source_az, m.target_az, m.avg_ms⟩
    | _ => Option.none)

/-- Stable insertion of an entry in front of the first element of
greater-or-equal average latency.  Folding this over the list is
extensionally the stable sort `list.sort(key=lambda x: x[4])` performed at
generate_report.py line 61: both sort by `avg` alone and preserve the
arrival order of entries with equal `avg`. -/
def insertByAvg (e : Entry) : List Entry → List Entry
  | [] => [e]
  | f :: fs => if e.avg ≤ f.avg then e :: f :: fs else f :: insertByAvg e fs

/-- Stable sort of the latency rows by `avg` only (generate_report.py
line 61). -/
def sortByAvg : List Entry → List Entry
  | [] => []
  | e :: es => insertByAvg e (sortByAvg es)

/-- The sorted `all_latencies` list of `generate_report`. -/
def rankedLatencies (rs : List MResult) : List Entry :=
  sortByAvg (entriesOf rs)

/-- The `Top n Lowest` listing, `all_latencies[:n]` (generate_report.py
line 130). -/
def topLowest (rs : List MResult) (n : ℕ) : List Entry :=
  (rankedLatencies rs).take n

/-- The `Top n Highest` listing, `all_latencies[-n:][::-1]`
(generate_report.py line 139). -/
def topHighest (rs : List MResult) (n : ℕ) : List Entry :=
  ((rankedLatencies rs).drop ((rankedLatencies rs).length - n)).reverse

/-- Strict lexicographic order on `(cloud, region, source_az, target_az)`,
the tie-break order named by the specification. -/
def lexLtB (a b : Entry) : Bool :=
  decide (a.cloud < b.cloud) ||
    (a.cloud == b.cloud && (decide (a.region < b.region) ||
      (a.region == b.region && (decide (a.src < b.src) ||
        (a.src == b.src && decide (a.tgt < b.tgt))))))

/-- Test for a `type == 'result'` record. -/
def isMeasurement : MResult → Bool
  | MResult.result _ => true
  | _ => false

/-- Test for a `type == 'error'` record. -/
def isErrorRes : MResult → Bool
  | MResult.error _ _ _ _ _ => true
  | _ => false

/-- Test for a `type == 'skip'` record. -/
def isSkipRes : MResult → Bool
  | MResult.skip _ _ _ _ => true
  | _ => false

/-- The `total_measurements` metadata count (orchestrate.py line 400). -/
def total_measurements (rs : List MResult) : ℕ :=
  (rs.filter isMeasurement).length

/-- The `total_errors` metadata count (orchestrate.py line 401). -/
def total_errors (rs : List MResult) : ℕ :=
  (rs.filter isErrorRes).length

/-- Number of skip records in a result sequence.  The script computes no
such count: the saved metadata has only `total_measurements` and
`total_errors`; this definition exists to state the accounting of the full
sequence. -/
def num_skipped (rs : List MResult) : ℕ :=
  (rs.filter isSkipRes).length

/-- Concrete inventory entry used to instantiate the theorems below. -/
def instA : Instance := ⟨"use1-az1", "us-east-1", "aws", "1.1.1.1", "10.0.0.1"⟩

/-- Second concrete inventory entry, same cloud and region as `instA`. -/
def instB : Instance := ⟨"use1-az2", "us-east-1", "aws", "2.2.2.2", "10.0.0.2"⟩

/-- Concrete inventory entry in a different region. -/
def instC : Instance := ⟨"use2-az1", "us-east-2", "aws", "4.4.4.4", "10.1.0.1"⟩

/-- Concrete inventory entry reporting the same zone id as `instA`. -/
def instDup : Instance := ⟨"use1-az1", "us-east-1", "aws", "3.3.3.3", "10.0.0.3"⟩

/-- Concrete three-instance inventory spanning two regions. -/
def invEx : List Instance := [instA, instB, instC]

/-- Concrete probe stdout texts whose samples are `[1.0, 2.0, 3.0]` ms. -/
def exOuts : List String :=
  ["    latency  =  1.0 ms", "    latency  =  2.0 ms", "    latency  =  3.0 ms"]

/-- The measurement record produced for `exOuts`: `min 1`, `avg 2`, `max 3`,
population variance `2/3`, sample count `3`. -/
def exRec : Measurement :=
  ⟨"aws", "us-east-1", "use1-az1", "use1-az2", "1.1.1.1", "10.0.0.2", 1, 2, 3, 2/3, 3⟩

/-- Fuel-bounded `⌊log2 n⌋` (`0` for `n ≤ 1`).  Structural recursion on the
fuel; `4096` units of fuel cover every number below `2 ^ 4096`, far beyond
every IEEE-754 binary64 significand-exponent combination and every value
appearing in this file. -/
def log2fuel : ℕ → ℕ → ℕ
  | 0, _ => 0
  | fuel + 1, n => if 2 ≤ n then log2fuel fuel (n / 2) + 1 else 0

/-- The rational value `2 ^ k` for an integer exponent. -/
def pow2z (k : ℤ) : ℚ :=
  if 0 ≤ k then ((2 ^ k.toNat : ℕ) : ℚ) else 1 / ((2 ^ (-k).toNat : ℕ) : ℚ)

/-- Floor of the base-2 logarithm of a positive rational: the unique `k`
with `2 ^ k ≤ x < 2 ^ (k + 1)`.  Since `x = a / b` lies in
`[2 ^ (⌊log2 a⌋ - ⌊log2 b⌋ - 1), 2 ^ (⌊log2 a⌋ - ⌊log2 b⌋ + 1))`, the answer
is `k0` or `k0 + 1` for `k0 := ⌊log2 a⌋ - ⌊log2 b⌋ - 1`. -/
def qlog2floor (x : ℚ) : ℤ :=
  let a := x.num.toNat
  let b := x.den
  let k0 : ℤ := (log2fuel 4096 a : ℤ) - (log2fuel 4096 b : ℤ) - 1
  if pow2z (k0 + 1) ≤ x then k0 + 1 else k0

/-- Round a rational to the nearest integer, ties to even — the rounding
direction of IEEE-754 round-to-nearest-even. -/
def roundNE (y : ℚ) : ℤ :=
  let n := ⌊y⌋
  if y - (n : ℚ) < 1/2 then n
  else if (1 : ℚ)/2 < y - (n : ℚ) then n + 1
  else if n % 2 = 0 then n else n + 1

/-- Round a positive rational to 53 significant binary digits: scale into
`[2 ^ 52, 2 ^ 53)`, round to nearest-even, scale back. -/
def flPos (x : ℚ) : ℚ :=
  let e : ℤ := qlog2floor x - 52
  (roundNE (x * pow2z (-e)) : ℚ) * pow2z e

/-- The exact value of the IEEE-754 binary64 double nearest to `x`
(round-to-nearest-even), for values in the normal range.  This models the
arithmetic Python actually performs in `run_measurement`: every float
literal, sum, and quotient is the correctly rounded image of the exact
result.  Exponent overflow to `inf` (possible in the program for a matched
token of roughly 310 digits or more) and subnormals are outside this
model's range and are discussed, not proved, in the C7 amendment. -/
def fl53 (x : ℚ) : ℚ :=
  if x = 0 then 0 else if x < 0 then -(flPos (-x)) else flPos x

/-- Double-precision addition: the rounded exact sum. -/
def flAdd (a b : ℚ) : ℚ := fl53 (a + b)

/-- Double-precision division: the rounded exact quotient. -/
def flDiv (a b : ℚ) : ℚ := fl53 (a / b)

/-- Python's `sum` over floats: left fold of double additions starting at
`0`, as in `sum(latencies)` at orchestrate.py line 190. -/
def flSum (l : List ℚ) : ℚ := l.foldl flAdd 0

/-- The double-precision value of `sum(latencies) / len(latencies)`
(orchestrate.py line 190) when the parsed samples are the doubles in `l`:
small integer lengths are exact doubles, so only the sum and the quotient
round. -/
def ieeeAvg (l : List ℚ) : ℚ := flDiv (flSum l) ((l.length : ℚ))

theorem foldl_min_le_init (l : List ℚ) : ∀ a : ℚ, List.foldl min a l ≤ a := by
  induction l with
  | nil => intro a; simp
  | cons b t ih =>
    intro a
    calc List.foldl min (min a b) t ≤ min a b := ih (min a b)
    _ ≤ a := min_le_left a b

theorem foldl_min_le_mem (l : List ℚ) : ∀ a b : ℚ, b ∈ l → List.foldl min a l ≤ b := by
  induction l with
  | nil => intro a b h; cases h
  | cons c t ih =>
    intro a b h
    rcases List.mem_cons.mp h with h1 | h2
    · subst h1
      calc List.foldl min (min a b) t ≤ min a b := foldl_min_le_init t (min a b)
      _ ≤ b := min_le_right a b
    · exact ih (min a c) b h2

theorem foldl_min_mem (l : List ℚ) : ∀ a : ℚ, List.foldl min a l = a ∨ List.foldl min a l ∈ l := by
  induction l with
  | nil => intro a; left; rfl
  | cons b t ih =>
    intro a
    rcases ih (min a b) with h | h
    · rcases min_cases a b with ⟨hm, _⟩ | ⟨hm, _⟩
      · left; rw [List.foldl_cons, h, hm]
      · right; rw [List.foldl_cons, h, hm]; exact List.mem_cons_self b t
    · right; exact List.mem_cons_of_mem b h

theorem init_le_foldl_max (l : List ℚ) : ∀ a : ℚ, a ≤ List.foldl max a l := by
  induction l with
  | nil => intro a; simp
  | cons b t ih =>
    intro a
    calc a ≤ max a b := le_max_left a b
    _ ≤ List.foldl max (max a b) t := ih (max a b)

theorem mem_le_foldl_max (l : List ℚ) : ∀ a b : ℚ, b ∈ l → b ≤ List.foldl max a l := by
  induction l with
  | nil => intro a b h; cases h
  | cons c t ih =>
    intro a b h
    rcases List.mem_cons.mp h with h1 | h2
    · subst h1
      calc b ≤ max a b := le_max_right a b
      _ ≤ List.foldl max (max a b) t := init_le_foldl_max t (max a b)
    · exact ih (max a c) b h2

theorem foldl_max_mem (l : List ℚ) : ∀ a : ℚ, List.foldl max a l = a ∨ List.foldl max a l ∈ l := by
  induction l with
  | nil => intro a; left; rfl
  | cons b t ih =>
    intro a
    rcases ih (max a b) with h | h
    · rcases max_cases a b with ⟨hm, _⟩ | ⟨hm, _⟩
      · left; rw [List.foldl_cons, h, hm]
      · right; rw [List.foldl_cons, h, hm]; exact List.mem_cons_self b t
    · right; exact List.mem_cons_of_mem b h

theorem length_mul_le_sum (l : List ℚ) (m : ℚ) (h : ∀ y ∈ l, m ≤ y) :
    (l.length : ℚ) * m ≤ l.sum := by
  induction l with
  | nil => simp
  | cons a t ih =>
    have ha : m ≤ a := h a (List.mem_cons_self a t)
    have ht := ih (fun y hy => h y (List.mem_cons_of_mem a hy))
    rw [List.sum_cons, List.length_cons]
    push_cast
    linarith

theorem sum_le_length_mul (l : List ℚ) (m : ℚ) (h : ∀ y ∈ l, y ≤ m) :
    l.sum ≤ (l.length : ℚ) * m := by
  induction l with
  | nil => simp
  | cons a t ih =>
    have ha : a ≤ m := h a (List.mem_cons_self a t)
    have ht := ih (fun y hy => h y (List.mem_cons_of_mem a hy))
    rw [List.sum_cons, List.length_cons]
    push_cast
    linarith

theorem pairsOf_length {α : Type} (l : List α) :
    (pairsOf l).length = Nat.choose l.length 2 := by
  induction l with
  | nil => rfl
  | cons x xs ih =>
    rw [pairsOf, List.length_append, List.length_map, ih, List.length_cons,
      Nat.choose_succ_succ, Nat.choose_one_right]

theorem mem_pairsOf {α : Type} {p : α × α} {l : List α} (h : p ∈ pairsOf l) :
    p.1 ∈ l ∧ p.2 ∈ l := by
  induction l with
  | nil => cases h
  | cons x xs ih =>
    rw [pairsOf, List.mem_append] at h
    rcases h with h | h
    · rcases List.mem_map.mp h with ⟨y, hy, hp⟩
      subst hp
      exact ⟨List.mem_cons_self x xs, List.mem_cons_of_mem x hy⟩
    · rcases ih h with ⟨h1, h2⟩
      exact ⟨List.mem_cons_of_mem x h1, List.mem_cons_of_mem x h2⟩

theorem resultKey_run_measurement (src tgt : Instance) (b : ProbeBehavior) :
    resultKey (run_measurement src tgt b) = (src.az_id, tgt.az_id) := by
  unfold run_measurement
  split
  · rfl
  · split
    · rfl
    · rfl
    · split <;> rfl

theorem digitsToNat_cast_nonneg (l : List Char) : (0 : ℚ) ≤ (digitsToNat l : ℚ) := by
  exact_mod_cast Nat.zero_le (digitsToNat l)

theorem parseFloatTok_nonneg {tok : List Char} {q : ℚ}
    (h : parseFloatTok tok = Option.some q) : 0 ≤ q := by
  unfold parseFloatTok at h
  split at h
  · cases h
  · split at h
    · rw [Option.some.injEq] at h
      subst h
      exact digitsToNat_cast_nonneg tok
    · split at h
      · rw [Option.some.injEq] at h
        subst h
        have h1 := digitsToNat_cast_nonneg (tok.takeWhile (fun c => !(c == '.')))
        have h2 := digitsToNat_cast_nonneg ((tok.dropWhile (fun c => !(c == '.'))).drop 1)
        have h3 : (0 : ℚ) < (10 : ℚ) ^ ((tok.dropWhile (fun c => !(c == '.'))).drop 1).length :=
          pow_pos (by norm_num) _
        positivity
      · cases h

theorem unitToMs_nonneg {u : String} {v : ℚ} (h : 0 ≤ v) : 0 ≤ unitToMs u v := by
  unfold unitToMs
  split
  · positivity
  · split
    · positivity
    · exact h

theorem parse_ok_some_nonneg {s : String} {v : ℚ}
    (h : parse_qperf_output s = ParseOut.ok (Option.some v)) : 0 ≤ v := by
  unfold parse_qperf_output at h
  split at h
  · cases h
  · rename_i tok u heq
    split at h
    · cases h
    · rename_i q hq
      rw [ParseOut.ok.injEq, Option.some.injEq] at h
      subst h
      exact unitToMs_nonneg (parseFloatTok_nonneg hq)

theorem collect_ok_nonneg {outs : List String} {ls : List ℚ}
    (h : collectLatencies outs = CollectOut.ok ls) : ∀ v ∈ ls, 0 ≤ v := by
  induction outs generalizing ls with
  | nil =>
    rw [collectLatencies, CollectOut.ok.injEq] at h
    subst h
    intro v hv; cases hv
  | cons out rest ih =>
    rw [collectLatencies] at h
    split at h
    · exact ih h
    · split at h
      · cases h
      · exact ih h
      · rename_i v hv
        split at h
        · cases h
        · rename_i ls2 hls2
          rw [CollectOut.ok.injEq] at h
          subst h
          intro w hw
          rcases List.mem_cons.mp hw with h1 | h2
          · subst h1; exact parse_ok_some_nonneg hv
          · exact ih hls2 w h2

theorem run_measurement_result_inv {src tgt : Instance} {b : ProbeBehavior} {r : Measurement}
    (h : run_measurement src tgt b = MResult.result r) :
    src.az_id ≠ tgt.az_id ∧
    ∃ outs x xs, b = ProbeBehavior.ok outs ∧
      collectLatencies outs = CollectOut.ok (x :: xs) ∧
      r = measureFromLats src tgt x xs := by
  unfold run_measurement at h
  split at h
  · cases h
  · rename_i haz
    refine ⟨haz, ?_⟩
    split at h
    · cases h
    · cases h
    · rename_i outs
      split at h
      · cases h
      · cases h
      · rename_i x xs hc
        rw [MResult.result.injEq] at h
        exact ⟨outs, x, xs, rfl, hc, h.symm⟩

theorem length_cons_cast_pos (x : ℚ) (xs : List ℚ) :
    (0 : ℚ) < ((x :: xs).length : ℚ) := by
  rw [List.length_cons]
  exact_mod_cast Nat.succ_pos xs.length

theorem foldl_min_le_all (x : ℚ) (xs : List ℚ) :
    ∀ y ∈ x :: xs, List.foldl min x xs ≤ y := by
  intro y hy
  rcases List.mem_cons.mp hy with h | h
  · subst h; exact foldl_min_le_init xs y
  · exact foldl_min_le_mem xs x y h

theorem all_le_foldl_max (x : ℚ) (xs : List ℚ) :
    ∀ y ∈ x :: xs, y ≤ List.foldl max x xs := by
  intro y hy
  rcases List.mem_cons.mp hy with h | h
  · subst h; exact init_le_foldl_max xs y
  · exact mem_le_foldl_max xs x y h

theorem measure_min_mem (src tgt : Instance) (x : ℚ) (xs : List ℚ) :
    (measureFromLats src tgt x xs).min_ms ∈ x :: xs := by
  show List.foldl min x xs ∈ x :: xs
  rcases foldl_min_mem xs x with h | h
  · rw [h]; exact List.mem_cons_self x xs
  · exact List.mem_cons_of_mem x h

theorem measure_max_mem (src tgt : Instance) (x : ℚ) (xs : List ℚ) :
    (measureFromLats src tgt x xs).max_ms ∈ x :: xs := by
  show List.foldl max x xs ∈ x :: xs
  rcases foldl_max_mem xs x with h | h
  · rw [h]; exact List.mem_cons_self x xs
  · exact List.mem_cons_of_mem x h

theorem measure_avg_mul (src tgt : Instance) (x : ℚ) (xs : List ℚ) :
    (measureFromLats src tgt x xs).avg_ms * ((x :: xs).length : ℚ) = (x :: xs).sum := by
  show (x :: xs).sum / ((x :: xs).length : ℚ) * ((x :: xs).length : ℚ) = (x :: xs).sum
  exact div_mul_cancel₀ _ (ne_of_gt (length_cons_cast_pos x xs))

theorem measure_mdev_mul (src tgt : Instance) (x : ℚ) (xs : List ℚ) :
    (measureFromLats src tgt x xs).mdev_sq * ((x :: xs).length : ℚ) =
      ((x :: xs).map (fun y => (y - (measureFromLats src tgt x xs).avg_ms) ^ 2)).sum := by
  exact div_mul_cancel₀ _ (ne_of_gt (length_cons_cast_pos x xs))

theorem measure_min_le_avg (src tgt : Instance) (x : ℚ) (xs : List ℚ) :
    (measureFromLats src tgt x xs).min_ms ≤ (measureFromLats src tgt x xs).avg_ms := by
  show List.foldl min x xs ≤ (x :: xs).sum / ((x :: xs).length : ℚ)
  rw [le_div_iff₀ (length_cons_cast_pos x xs), mul_comm]
  exact length_mul_le_sum (x :: xs) (List.foldl min x xs) (foldl_min_le_all x xs)

theorem measure_avg_le_max (src tgt : Instance) (x : ℚ) (xs : List ℚ) :
    (measureFromLats src tgt x xs).avg_ms ≤ (measureFromLats src tgt x xs).max_ms := by
  show (x :: xs).sum / ((x :: xs).length : ℚ) ≤ List.foldl max x xs
  rw [div_le_iff₀ (length_cons_cast_pos x xs), mul_comm]
  exact sum_le_length_mul (x :: xs) (List.foldl max x xs) (all_le_foldl_max x xs)

theorem measure_mdev_nonneg (src tgt : Instance) (x : ℚ) (xs : List ℚ) :
    0 ≤ (measureFromLats src tgt x xs).mdev_sq := by
  apply div_nonneg _ (le_of_lt (length_cons_cast_pos x xs))
  apply List.sum_nonneg
  intro y hy
  rcases List.mem_map.mp hy with ⟨z, _, hz⟩
  rw [← hz]
  exact sq_nonneg _

theorem insertByAvg_perm (e : Entry) (l : List Entry) :
    (insertByAvg e l).Perm (e :: l) := by
  induction l with
  | nil => exact List.Perm.refl _
  | cons f fs ih =>
    rw [insertByAvg]
    split
    · exact List.Perm.refl _
    · exact (ih.cons f).trans (List.Perm.swap e f fs)

theorem sortByAvg_perm (l : List Entry) : (sortByAvg l).Perm l := by
  induction l with
  | nil => exact List.Perm.refl _
  | cons e es ih =>
    rw [sortByAvg]
    exact (insertByAvg_perm e (sortByAvg es)).trans (ih.cons e)

theorem mem_insertByAvg {x e : Entry} {l : List Entry} :
    x ∈ insertByAvg e l ↔ x = e ∨ x ∈ l := by
  rw [(insertByAvg_perm e l).mem_iff, List.mem_cons]

theorem pairwise_insertByAvg {e : Entry} {l : List Entry}
    (h : List.Pairwise (fun a b => a.avg ≤ b.avg) l) :
    List.Pairwise (fun a b => a.avg ≤ b.avg) (insertByAvg e l) := by
  induction l with
  | nil => exact List.pairwise_singleton _ e
  | cons f fs ih =>
    rw [insertByAvg]
    rcases List.pairwise_cons.mp h with ⟨hf, hfs⟩
    split
    · rename_i hef
      refine List.pairwise_cons.mpr ⟨?_, h⟩
      intro b hb
      rcases List.mem_cons.mp hb with h1 | h2
      · subst h1; exact hef
      · exact le_trans hef (hf b h2)
    · rename_i hef
      refine List.pairwise_cons.mpr ⟨?_, ih hfs⟩
      intro b hb
      rcases mem_insertByAvg.mp hb with h1 | h2
      · subst h1; exact le_of_not_le hef
      · exact hf b h2

theorem sortByAvg_pairwise (l : List Entry) :
    List.Pairwise (fun a b => a.avg ≤ b.avg) (sortByAvg l) := by
  induction l with
  | nil => exact List.Pairwise.nil
  | cons e es ih => exact pairwise_insertByAvg ih

theorem filter_insertByAvg (c : ℚ) (e : Entry) (l : List Entry) :
    (insertByAvg e l).filter (fun x => decide (x.avg = c)) =
      if e.avg = c then e :: l.filter (fun x => decide (x.avg = c))
      else l.filter (fun x => decide (x.avg = c)) := by
  induction l with
  | nil =>
    rw [insertByAvg]
    by_cases h : e.avg = c
    · rw [if_pos h]
      simp [List.filter, h]
    · rw [if_neg h]
      simp [List.filter, h]
  | cons f fs ih =>
    rw [insertByAvg]
    split
    · rename_i hef
      by_cases h : e.avg = c
      · rw [if_pos h]
        rw [List.filter_cons, if_pos (by simpa using h)]
      · rw [if_neg h]
        rw [List.filter_cons, if_neg (by simpa using h)]
    · rename_i hef
      have hfe : f.avg < e.avg := lt_of_not_le hef
      by_cases h : e.avg = c
      · rw [if_pos h]
        have hf : ¬(f.avg = c) := by
          rw [← h]
          exact ne_of_lt hfe
        rw [List.filter_cons, if_neg (by simpa using hf), List.filter_cons,
          if_neg (by simpa using hf), ih, if_pos h]
      · rw [if_neg h]
        rw [List.filter_cons, List.filter_cons, ih, if_neg h]

theorem sortByAvg_stable (c : ℚ) (l : List Entry) :
    (sortByAvg l).filter (fun x => decide (x.avg = c)) =
      l.filter (fun x => decide (x.avg = c)) := by
  induction l with
  | nil => rfl
  | cons e es ih =>
    rw [sortByAvg, filter_insertByAvg, List.filter_cons]
    by_cases h : e.avg = c
    · rw [if_pos h, if_pos (by simpa using h), ih]
    · rw [if_neg h, if_neg (by simpa using h), ih]

theorem parseFloatTok_some {tok : List Char} (hd : tok.any Char.isDigit = true)
    (hc : tok.count '.' ≤ 1) : ∃ q, parseFloatTok tok = Option.some q := by
  unfold parseFloatTok
  rw [hd]
  rcases Nat.le_one_iff_eq_zero_or_eq_one.mp hc with h0 | h1
  · rw [h0]
    exact ⟨_, rfl⟩
  · rw [h1]
    exact ⟨_, rfl⟩

/-- C1: for every generated work list of pairs, the sequence of results
returned by the scheduler — in whatever completion order `as_completed`
yields — contains exactly one result whose `(source_az, target_az)` matches
each submitted pair, as a multiset: no pair's result is duplicated and none
is omitted, regardless of per-pair probe behaviour (timeouts, exceptions,
arbitrary output). -/
theorem scheduler_exactly_one_result_per_pair
    (instances : List Instance) (behav : Instance × Instance → ProbeBehavior)
    (out : List MResult) (h : out.Perm (run_region_measurements instances behav)) :
    (out.map resultKey).Perm
      ((pairsOf instances).map (fun p => (p.1.az_id, p.2.az_id))) := by
  refine (h.map resultKey).trans ?_
  rw [run_region_measurements, List.map_map]
  have he : (resultKey ∘ fun p : Instance × Instance => run_measurement p.1 p.2 (behav p)) =
      fun p : Instance × Instance => (p.1.az_id, p.2.az_id) := by
    funext p
    exact resultKey_run_measurement p.1 p.2 (behav p)
  rw [he]

/-- Witness for C1 at a concrete two-instance inventory where the only pair
times out. -/
theorem scheduler_exactly_one_result_per_pair_witness :
    ((run_region_measurements [instA, instB] (fun _ => ProbeBehavior.timeout)).map
      resultKey).Perm
      ((pairsOf [instA, instB]).map (fun p => (p.1.az_id, p.2.az_id))) :=
  scheduler_exactly_one_result_per_pair [instA, instB] (fun _ => ProbeBehavior.timeout) _
    (List.Perm.refl _)

/-- C2: for every non-same-AZ pair, a probe timeout yields the
`timeout` error record, any other probe exception yields an error record
carrying the exception message (the record the specification's taxonomy
calls `transport_error`), and — since `run_measurement` is a total function
into `MResult` — no exception escapes to the scheduler: the scheduler's
output covers every submitted pair whatever each probe does. -/
theorem executor_maps_failures_to_results (src tgt : Instance)
    (h : src.az_id ≠ tgt.az_id) :
    run_measurement src tgt ProbeBehavior.timeout =
      MResult.error src.cloud src.az_id tgt.az_id "timeout" Option.none ∧
    (∀ m, run_measurement src tgt (ProbeBehavior.exn m) =
      MResult.error src.cloud src.az_id tgt.az_id m Option.none) ∧
    ∀ (instances : List Instance) (behav : Instance × Instance → ProbeBehavior),
      (run_region_measurements instances behav).length = (pairsOf instances).length := by
  refine ⟨?_, ?_, ?_⟩
  · unfold run_measurement
    rw [if_neg h]
  · intro m
    unfold run_measurement
    rw [if_neg h]
  · intro instances behav
    rw [run_region_measurements, List.length_map]

/-- Witness for C2 at a concrete pair. -/
theorem executor_maps_failures_to_results_witness :
    run_measurement instA instB ProbeBehavior.timeout =
      MResult.error "aws" "use1-az1" "use1-az2" "timeout" Option.none :=
  (executor_maps_failures_to_results instA instB (by decide)).1

/-- C3: for every inventory, the work list generated for the
`(cloud, region)` group is exactly `itertools.combinations` of the group,
so it has `C(n, 2)` pairs for a group of size `n`, and both endpoints of
every emitted pair carry that group's cloud and region tags — no
cross-region or cross-cloud pair is ever emitted. -/
theorem pair_generation_counts_and_grouping (inv : List Instance) (c r : String) :
    (pairsOf (groupOf inv c r)).length = Nat.choose (groupOf inv c r).length 2 ∧
    ∀ p ∈ pairsOf (groupOf inv c r),
      p.1.cloud = c ∧ p.1.region = r ∧ p.2.cloud = c ∧ p.2.region = r ∧
      p.1.cloud = p.2.cloud ∧ p.1.region = p.2.region := by
  constructor
  · exact pairsOf_length _
  · intro p hp
    rcases mem_pairsOf hp with ⟨h1, h2⟩
    rcases List.mem_filter.mp h1 with ⟨_, hb1⟩
    rcases List.mem_filter.mp h2 with ⟨_, hb2⟩
    simp only [Bool.and_eq_true, beq_iff_eq] at hb1 hb2
    exact ⟨hb1.1, hb1.2, hb2.1, hb2.2, hb1.1.trans hb2.1.symm, hb1.2.trans hb2.2.symm⟩

/-- Witness for C3 at a concrete three-instance, two-region inventory:
`(instA, instB)` is an emitted pair of the `us-east-1` group and both
endpoints carry that group's tags. -/
theorem pair_generation_counts_and_grouping_witness :
    instA.cloud = "aws" ∧ instA.region = "us-east-1" ∧
    instB.cloud = "aws" ∧ instB.region = "us-east-1" ∧
    instA.cloud = instB.cloud ∧ instA.region = instB.region :=
  (pair_generation_counts_and_grouping invEx "aws" "us-east-1").2 (instA, instB) (by decide)

/-- C6: a pair whose source and target report the same zone id produces the
`same_az` skip record, and the probe oracle is never consulted: the outcome
is the same for every probe behaviour. -/
theorem same_az_pair_skipped (src tgt : Instance) (b b2 : ProbeBehavior)
    (h : src.az_id = tgt.az_id) :
    run_measurement src tgt b = MResult.skip src.cloud src.az_id tgt.az_id "same_az" ∧
    run_measurement src tgt b = run_measurement src tgt b2 := by
  constructor
  · unfold run_measurement
    rw [if_pos h]
  · unfold run_measurement
    rw [if_pos h, if_pos h]

/-- Witness for C6 at a concrete pair of distinct nodes reporting the same
zone id. -/
theorem same_az_pair_skipped_witness :
    run_measurement instA instDup ProbeBehavior.timeout =
      MResult.skip "aws" "use1-az1" "use1-az1" "same_az" :=
  (same_az_pair_skipped instA instDup ProbeBehavior.timeout (ProbeBehavior.exn "x")
    (by decide)).1

/-- C4: whenever the collection loop yields the non-empty sample list
`x :: xs`, the executor returns a measurement whose `min_ms` is the least
sample, `max_ms` the greatest, `avg_ms` the arithmetic mean, `mdev_sq` the
population variance (the code stores its square root as the spread), and
`sample_count` the number of samples; in particular the samples
`[1.0, 2.0, 3.0]` ms yield `min 1`, `avg 2`, `max 3`, `count 3`, and a
spread `Real.sqrt (2/3) = 0.816...` strictly between `0.816` and `0.817`. -/
theorem executor_statistics_correct :
    (∀ (src tgt : Instance) (outs : List String) (x : ℚ) (xs : List ℚ) (r : Measurement),
      collectLatencies outs = CollectOut.ok (x :: xs) →
      run_measurement src tgt (ProbeBehavior.ok outs) = MResult.result r →
      (r.min_ms ∈ x :: xs ∧ (∀ y ∈ x :: xs, r.min_ms ≤ y) ∧
       r.max_ms ∈ x :: xs ∧ (∀ y ∈ x :: xs, y ≤ r.max_ms) ∧
       r.avg_ms * ((x :: xs).length : ℚ) = (x :: xs).sum ∧
       r.mdev_sq * ((x :: xs).length : ℚ) =
         ((x :: xs).map (fun y => (y - r.avg_ms) ^ 2)).sum ∧
       r.sample_count = (x :: xs).length)) ∧
    (run_measurement instA instB (ProbeBehavior.ok exOuts) = MResult.result exRec ∧
     exRec.min_ms = 1 ∧ exRec.avg_ms = 2 ∧ exRec.max_ms = 3 ∧ exRec.sample_count = 3 ∧
     exRec.mdev_sq = 2/3 ∧
     (816/1000 : ℝ) < Real.sqrt ((exRec.mdev_sq : ℚ) : ℝ) ∧
     Real.sqrt ((exRec.mdev_sq : ℚ) : ℝ) < 817/1000) := by
  constructor
  · intro src tgt outs x xs r hc hr
    rcases run_measurement_result_inv hr with ⟨haz, outs2, x2, xs2, hb, hc2, hrr⟩
    have houts : outs = outs2 := by
      injection hb
    subst houts
    rw [hc, CollectOut.ok.injEq, List.cons.injEq] at hc2
    rcases hc2 with ⟨hx, hxs⟩
    subst hx
    subst hxs
    subst hrr
    exact ⟨measure_min_mem src tgt x xs, foldl_min_le_all x xs,
      measure_max_mem src tgt x xs, all_le_foldl_max x xs,
      measure_avg_mul src tgt x xs, measure_mdev_mul src tgt x xs, rfl⟩
  · refine ⟨of_decide_eq_true (by with_unfolding_all rfl), rfl, rfl, rfl, rfl, rfl, ?_, ?_⟩
    · have hcast : ((exRec.mdev_sq : ℚ) : ℝ) = 2/3 := by
        norm_num [exRec]
      rw [hcast, Real.lt_sqrt (by norm_num)]
      norm_num
    · have hcast : ((exRec.mdev_sq : ℚ) : ℝ) = 2/3 := by
        norm_num [exRec]
      rw [hcast, Real.sqrt_lt' (by norm_num)]
      norm_num

/-- Witness for C4 at the concrete probe outputs `exOuts` with samples
`[1, 2, 3]`. -/
theorem executor_statistics_correct_witness :
    exRec.min_ms ∈ ([1, 2, 3] : List ℚ) :=
  (executor_statistics_correct.1 instA instB exOuts 1 [2, 3] exRec
    (of_decide_eq_true (by with_unfolding_all rfl))
    (of_decide_eq_true (by with_unfolding_all rfl))).1

/-- C7, amended: in exact arithmetic, every measurement record the executor
can produce, for any probe behaviour, satisfies `0 ≤ min ≤ avg ≤ max`, has
a non-negative variance (hence a non-negative spread) and a positive sample
count.  This is the ideal of the statistics of orchestrate.py lines
186-212; the program evaluates the same formulas in IEEE-754 doubles, where
rounding can push the stored `avg_ms` one ulp above `max_ms` (see the
counterexample on `ieeeAvg`) and where a sufficiently long matched digit
token overflows `float` to `inf`, making `min`, `avg`, `max` infinite and
the spread `nan` through `inf - inf` — so the invariant holds of the exact
values, not bit-for-bit of the stored floats. -/
theorem measurement_invariant_min_avg_max (src tgt : Instance) (b : ProbeBehavior)
    (r : Measurement) (h : run_measurement src tgt b = MResult.result r) :
    0 ≤ r.min_ms ∧ r.min_ms ≤ r.avg_ms ∧ r.avg_ms ≤ r.max_ms ∧
    0 ≤ r.mdev_sq ∧ 0 < r.sample_count := by
  rcases run_measurement_result_inv h with ⟨haz, outs, x, xs, hb, hc, hrr⟩
  subst hrr
  have hnn := collect_ok_nonneg hc
  exact ⟨hnn _ (measure_min_mem src tgt x xs),
    measure_min_le_avg src tgt x xs,
    measure_avg_le_max src tgt x xs,
    measure_mdev_nonneg src tgt x xs,
    Nat.succ_pos xs.length⟩

set_option maxRecDepth 8000 in
/-- C7 counterexample, under the program's IEEE-754 double arithmetic.
Concrete failing input: three of the five qperf iterations print
`latency = 0.1 ms` and the other two yield no sample, so the program's
parsed latencies are three copies of `float('0.1') = fl53 (1/10)` (the
exact token value is `1/10`, as the first conjunct checks against
`parse_qperf_output`).  Their double-precision maximum is `fl53 (1/10)`
itself, yet `sum(latencies)/len(latencies)` evaluated in doubles — each
operation correctly rounded — is one ulp larger: the program stores
`avg_ms = 0.10000000000000002 > max_ms = 0.1`, refuting
`min ≤ avg ≤ max` as a statement about the stored floats. -/
theorem measurement_invariant_claim_false_on_doubles :
    parse_qperf_output "latency = 0.1 ms" = ParseOut.ok (Option.some (1/10)) ∧
    List.foldl max (fl53 (1/10)) [fl53 (1/10), fl53 (1/10)] = fl53 (1/10) ∧
    fl53 (1/10) < ieeeAvg [fl53 (1/10), fl53 (1/10), fl53 (1/10)] ∧
    fl53 (1/10) = 3602879701896397 / 2 ^ 55 ∧
    ieeeAvg [fl53 (1/10), fl53 (1/10), fl53 (1/10)] = 7205759403792795 / 2 ^ 56 := by
  have h1 : fl53 (1/10) = 3602879701896397 / 2 ^ 55 := by with_unfolding_all rfl
  have h2 : ieeeAvg [fl53 (1/10), fl53 (1/10), fl53 (1/10)] = 7205759403792795 / 2 ^ 56 := by
    with_unfolding_all rfl
  have h3 : List.foldl max (fl53 (1/10)) [fl53 (1/10), fl53 (1/10)] = fl53 (1/10) := by
    with_unfolding_all rfl
  have h0 : parse_qperf_output "latency = 0.1 ms" = ParseOut.ok (Option.some (1/10)) := by
    with_unfolding_all rfl
  refine ⟨h0, h3, ?_, h1, h2⟩
  rw [h2, h1]
  norm_num

/-- Witness for the amended C7 at the concrete run on `exOuts`. -/
theorem measurement_invariant_min_avg_max_witness :
    0 ≤ exRec.min_ms ∧ exRec.min_ms ≤ exRec.avg_ms ∧ exRec.avg_ms ≤ exRec.max_ms ∧
    0 ≤ exRec.mdev_sq ∧ 0 < exRec.sample_count :=
  measurement_invariant_min_avg_max instA instB (ProbeBehavior.ok exOuts) exRec
    (of_decide_eq_true (by with_unfolding_all rfl))

/-- C5 counterexample: for the concrete probe output `"garbage"` (which
parses to no sample), the executor returns the `no_valid_measurements`
error record whose diagnostic `output` field is the fixed text
`noValidMsg`, and that text is not a substring — hence not an excerpt — of
the probe's raw output. -/
theorem parse_error_excerpt_claim_false :
    run_measurement instA instB (ProbeBehavior.ok ["garbage"]) =
      MResult.error "aws" "use1-az1" "use1-az2" "no_valid_measurements"
        (Option.some noValidMsg) ∧
    hasSubstr noValidMsg.data "garbage".data = false :=
  ⟨of_decide_eq_true (by with_unfolding_all rfl), by decide⟩

/-- C5 amended: when the probe completes but yields no valid numeric
sample, the executor returns the `no_valid_measurements` (`parse_error`)
record whose diagnostic text is the fixed 38-character message
`noValidMsg` — bounded (well under 500 characters) and never the raw
output, but a constant, not an excerpt of the raw output. -/
theorem parse_error_fixed_message (src tgt : Instance) (outs : List String)
    (h : src.az_id ≠ tgt.az_id) (hc : collectLatencies outs = CollectOut.ok []) :
    run_measurement src tgt (ProbeBehavior.ok outs) =
      MResult.error src.cloud src.az_id tgt.az_id "no_valid_measurements"
        (Option.some noValidMsg) ∧
    noValidMsg.length ≤ 500 := by
  constructor
  · unfold run_measurement
    rw [if_neg h]
    simp only [hc]
  · decide

/-- Witness for the amended C5 at the concrete output `"garbage"`. -/
theorem parse_error_fixed_message_witness :
    run_measurement instA instB (ProbeBehavior.ok ["garbage"]) =
      MResult.error instA.cloud instA.az_id instB.az_id "no_valid_measurements"
        (Option.some noValidMsg) ∧
    noValidMsg.length ≤ 500 :=
  parse_error_fixed_message instA instB ["garbage"] (by decide)
    (of_decide_eq_true (by with_unfolding_all rfl))

/-- First concrete tied latency row: lexicographically above `entryEx2` but
arriving first. -/
def entryEx1 : Entry := ⟨"aws", "us-east-1", "use1-az2", "use1-az1", 1⟩

/-- Second concrete tied latency row: lexicographically below `entryEx1` but
arriving second. -/
def entryEx2 : Entry := ⟨"aws", "us-east-1", "use1-az1", "use1-az2", 1⟩

/-- C8 counterexample: two measurement rows with equal average latency whose
`(cloud, region, source_az, target_az)` keys are in reversed lexicographic
order.  The report's sort keeps them in arrival order — `entryEx2` is
lexicographically below `entryEx1`, yet sorting `[entryEx1, entryEx2]`
leaves `entryEx1` first — and the two arrival orders of the same multiset
produce different listings, refuting both the lexicographic tie-break and
multiset-determinism. -/
theorem ranking_tiebreak_claim_false :
    entryEx1.avg = entryEx2.avg ∧
    lexLtB entryEx2 entryEx1 = true ∧
    sortByAvg [entryEx1, entryEx2] = [entryEx1, entryEx2] ∧
    sortByAvg [entryEx2, entryEx1] = [entryEx2, entryEx1] ∧
    sortByAvg [entryEx1, entryEx2] ≠ sortByAvg [entryEx2, entryEx1] :=
  ⟨of_decide_eq_true (by with_unfolding_all rfl),
   of_decide_eq_true (by with_unfolding_all rfl),
   of_decide_eq_true (by with_unfolding_all rfl),
   of_decide_eq_true (by with_unfolding_all rfl),
   of_decide_eq_true (by with_unfolding_all rfl)⟩

/-- C8 amended: the ranked latency listings order measurement rows by
average latency alone; the sort is a permutation of the rows, is
non-decreasing in `avg`, and is stable — rows with exactly equal latency
keep their arrival order (Python's stable `list.sort`), so the listing is
deterministic for a fixed arrival sequence but not for a fixed multiset,
and the tie-break is arrival order, not `(cloud, region, source_id,
target_id)` lexicographic order. -/
theorem ranking_stable_sort_by_avg (l : List Entry) :
    (sortByAvg l).Perm l ∧
    List.Pairwise (fun a b => a.avg ≤ b.avg) (sortByAvg l) ∧
    ∀ c : ℚ, (sortByAvg l).filter (fun x => decide (x.avg = c)) =
      l.filter (fun x => decide (x.avg = c)) :=
  ⟨sortByAvg_perm l, sortByAvg_pairwise l, fun c => sortByAvg_stable c l⟩

/-- C9 counterexample: a result sequence consisting of one skip record.
The two counts the script writes to its metadata (`total_measurements` and
`total_errors`) sum to zero and do not account for the skip: the metadata
carries no skipped tally. -/
theorem counts_accounting_claim_false :
    total_measurements [MResult.skip "aws" "use1-az1" "use1-az1" "same_az"] +
      total_errors [MResult.skip "aws" "use1-az1" "use1-az1" "same_az"] ≠
    ([MResult.skip "aws" "use1-az1" "use1-az1" "same_az"] : List MResult).length := by
  decide

/-- C9 amended: the run's summary metadata tallies only measurements
(`total_measurements`) and failures (`total_errors`) over the full result
sequence; skip records appear in the saved `results` sequence but are not
tallied in the metadata, and the two saved counts plus the (unsaved) skip
count account for every result. -/
theorem counts_partition_results (rs : List MResult) :
    total_measurements rs + total_errors rs + num_skipped rs = rs.length := by
  induction rs with
  | nil => rfl
  | cons r t ih =>
    cases r with
    | skip c s tg re =>
      simp [total_measurements, total_errors, num_skipped, List.filter_cons,
        isMeasurement, isErrorRes, isSkipRes] at ih ⊢
      omega
    | result m =>
      simp [total_measurements, total_errors, num_skipped, List.filter_cons,
        isMeasurement, isErrorRes, isSkipRes] at ih ⊢
      omega
    | error c s tg e o =>
      simp [total_measurements, total_errors, num_skipped, List.filter_cons,
        isMeasurement, isErrorRes, isSkipRes] at ih ⊢
      omega

/-- C10 counterexample: on the input `"latency = . ms"` the regex matches
with the numeric token `"."`, and `float('.')` raises `ValueError` — so
`parse_qperf_output` does raise on some inputs. -/
theorem parse_qperf_raises_on_malformed_token :
    parse_qperf_output "latency = . ms" =
      ParseOut.raise "could not convert string to float: ." :=
  of_decide_eq_true (by with_unfolding_all rfl)

/-- C10 amended: `parse_qperf_output` returns `None` when no latency line is
present, returns the single captured value normalised to milliseconds
(`us` divided by 1000, `s` multiplied by 1000) when the captured token is a
well-formed float, and never raises provided every matched token contains a
digit and at most one dot; tokens such as `"."` or `"1.2.3"` make it raise
`ValueError`. -/
theorem parse_qperf_total_on_wellformed (s : String) :
    (findLatency s.data = Option.none → parse_qperf_output s = ParseOut.ok Option.none) ∧
    (∀ (tok : List Char) (u : String) (q : ℚ),
      findLatency s.data = Option.some (tok, u) → parseFloatTok tok = Option.some q →
      parse_qperf_output s = ParseOut.ok (Option.some (unitToMs u q)) ∧
        0 ≤ unitToMs u q) ∧
    ((∀ (tok : List Char) (u : String), findLatency s.data = Option.some (tok, u) →
        tok.any Char.isDigit = true ∧ tok.count '.' ≤ 1) →
      ∀ m, parse_qperf_output s ≠ ParseOut.raise m) := by
  refine ⟨?_, ?_, ?_⟩
  · intro h
    unfold parse_qperf_output
    rw [h]
  · intro tok u q hf hq
    constructor
    · simp [parse_qperf_output, hf, hq]
    · exact unitToMs_nonneg (parseFloatTok_nonneg hq)
  · intro hvalid m
    cases hf : findLatency s.data with
    | none => simp [parse_qperf_output, hf]
    | some tu =>
      rcases hvalid tu.1 tu.2 (by rw [hf]) with ⟨hd, hc1⟩
      rcases parseFloatTok_some hd hc1 with ⟨q, hq⟩
      simp [parse_qperf_output, hf, hq]

/-- Witness for the amended C10 at the concrete input `"latency = 5 us"`:
the captured `5` is normalised from microseconds to `1/200` ms. -/
theorem parse_qperf_total_on_wellformed_witness :
    parse_qperf_output "latency = 5 us" =
      ParseOut.ok (Option.some (unitToMs "us" 5)) ∧
    0 ≤ unitToMs "us" 5 :=
  (parse_qperf_total_on_wellformed "latency = 5 us").2.1 ['5'] "us" 5
    (of_decide_eq_true (by with_unfolding_all rfl))
    (of_decide_eq_true (by with_unfolding_all rfl))

/-- Witness for the amended C8 at a concrete two-row listing. -/
theorem ranking_stable_sort_by_avg_witness :
    (sortByAvg [entryEx1, entryEx2]).Perm [entryEx1, entryEx2] :=
  (ranking_stable_sort_by_avg [entryEx1, entryEx2]).1

/-- Witness for the amended C9 at a concrete one-skip sequence. -/
theorem counts_partition_results_witness :
    total_measurements [MResult.skip "aws" "a" "a" "same_az"] +
      total_errors [MResult.skip "aws" "a" "a" "same_az"] +
      num_skipped [MResult.skip "aws" "a" "a" "same_az"] =
    ([MResult.skip "aws" "a" "a" "same_az"] : List MResult).length :=
  counts_partition_results [MResult.skip "aws" "a" "a" "same_az"]
